import Mathlib

/-!
Verification development for the Mary repository, a simulator of the Marie
teaching machine (two-pass assembler plus fetch-decode-execute engine).

The embedding follows the Go sources:
  * `assembler.go` — tokenizer, two-pass `Assemble`, `parseWord`;
  * `machine.go`   — `Word` (Go `int`, 64-bit), the `Machine` record,
                     `Machine.Run` (fetch loop) and `Machine.Load`;
  * `maria.go`     — the opcode constants, the `instruction` dispatch map and
                     the per-instruction semantics (`Load`, `Add`, `Skipcond`, ...).

Modelling conventions:
  * Go's `Word` is `int`, a 64-bit two's-complement integer; every Go
    arithmetic operation on it is embedded as the exact result passed through
    `wrap64`, which reduces into the interval [-2^63, 2^63).
  * Go's `x >> k` on `int` is an arithmetic shift, embedded as `Int.fdiv x 2^k`;
    `x & 0xFFF` on `int` is the low 12 bits, embedded as `Int.emod x 4096`.
  * Go map lookups that default to the zero value are embedded with `Option.getD 0`
    (this is precisely where the unresolved-symbol behaviour of `Assemble` lives).
  * `os.Exit(code)` is embedded as the `Exec.exit code m` outcome: the hosting
    process terminates carrying no return value to the caller of `Run`; the
    machine state `m` is recorded in the constructor so that theorems can talk
    about the state at the moment of exit.  A Go runtime panic (out-of-range
    array index, call of a `nil` map entry) is embedded as `Exec.crash m`.
  * Fallible functions return `Option`: `none` is the error outcome
    (`SyntaxError` for the assembler).
-/

namespace Mary

/-- Go `int` arithmetic is 64-bit two's complement: `wrap64` reduces an exact
integer result into [-2^63, 2^63), which is what every Go `+`, `-`, `++` on
`Word` (= `int`) computes. -/
def wrap64 (n : Int) : Int :=
  (n + 9223372036854775808) % 18446744073709551616 - 9223372036854775808

/-- minWordInt from machine.go: `-1 << 15`. -/
def minWordInt : Int := -32768

/-- maxWordInt from machine.go: `0xFFFF`. -/
def maxWordInt : Int := 65535

/-- machineMemory from machine.go: `1 << 12` words. -/
def machineMemory : Nat := 4096

/-! ## Tokenizer (assembler.go) -/

/-- Token types, mirroring the TokenType classifiers of assembler.go. -/
inductive TokenType where
  | instruction
  | directive
  | number
  | identifier
  | comma
deriving DecidableEq

/-- Token from assembler.go: a classified sub-string of a source line. -/
structure Token where
  typ : TokenType
  str : List Char
deriving DecidableEq

/-- Opcode constants from maria.go (`OpJnS Opcode = iota` ...). -/
def OpJnS : Int := 0
def OpLoad : Int := 1
def OpStore : Int := 2
def OpAdd : Int := 3
def OpSubt : Int := 4
def OpInput : Int := 5
def OpOutput : Int := 6
def OpHalt : Int := 7
def OpSkipcond : Int := 8
def OpJump : Int := 9
def OpClear : Int := 10
def OpAddI : Int := 11
def OpJumpI : Int := 12
def OpLoadI : Int := 13
def OpStoreI : Int := 14
def OpDump : Int := 15

/-- The `opcode` map of maria.go, mapping mnemonic literals to opcode values
(embedded as an association list; lookup order is irrelevant since keys are
distinct). -/
def opcode : List (List Char × Int) :=
  [("JnS".data, OpJnS), ("Load".data, OpLoad), ("Store".data, OpStore),
   ("Add".data, OpAdd), ("Subt".data, OpSubt), ("Input".data, OpInput),
   ("Output".data, OpOutput), ("Halt".data, OpHalt), ("Skipcond".data, OpSkipcond),
   ("Jump".data, OpJump), ("Clear".data, OpClear), ("AddI".data, OpAddI),
   ("JumpI".data, OpJumpI), ("LoadI".data, OpLoadI), ("StoreI".data, OpStoreI),
   ("Dump".data, OpDump)]

/-- Go `opcode[s]` with its zero-value default for a missing key. -/
def opcodeVal (s : List Char) : Int :=
  ((opcode.find? (fun p => p.1 == s)).map Prod.snd).getD 0

/-- TokenInstruction from assembler.go: the string is a key of the opcode map. -/
def TokenInstruction (s : List Char) : Bool :=
  (opcode.find? (fun p => p.1 == s)).isSome

/-- TokenDirective from assembler.go: regex `^(DEC|HEX)$`. -/
def TokenDirective (s : List Char) : Bool :=
  s == "DEC".data || s == "HEX".data

/-- Hexadecimal digit, the character class `[0-9A-Fa-f]`. -/
def isHexChar (c : Char) : Bool :=
  ('0' ≤ c && c ≤ '9') || ('A' ≤ c && c ≤ 'F') || ('a' ≤ c && c ≤ 'f')

/-- TokenNumber from assembler.go: regex `^[-+]?[0-9A-Fa-f]+$`. -/
def TokenNumber (s : List Char) : Bool :=
  match s with
  | [] => false
  | c :: rest =>
    if c = '-' ∨ c = '+' then !rest.isEmpty && rest.all isHexChar
    else (c :: rest).all isHexChar

/-- Letter, the character class `[A-Za-z]`. -/
def isLetterChar (c : Char) : Bool :=
  ('A' ≤ c && c ≤ 'Z') || ('a' ≤ c && c ≤ 'z')

/-- Letter or digit, the character class `[A-Za-z0-9]`. -/
def isAlnumChar (c : Char) : Bool :=
  isLetterChar c || ('0' ≤ c && c ≤ '9')

/-- TokenIdentifier from assembler.go: regex `^[A-Za-z][A-Za-z0-9]*$`. -/
def TokenIdentifier (s : List Char) : Bool :=
  match s with
  | [] => false
  | c :: rest => isLetterChar c && rest.all isAlnumChar

/-- TokenComma from assembler.go: the string is exactly `","`. -/
def TokenComma (s : List Char) : Bool :=
  s == ",".data

/-- Classification of one lexeme with the precedence of the `switch` in
`tokenize` (Instruction, then Directive, Number, Identifier, Comma); an
unmatched lexeme is the `bad token` lexical error. -/
def classify (s : List Char) : Option Token :=
  if TokenInstruction s then some ⟨TokenType.instruction, s⟩
  else if TokenDirective s then some ⟨TokenType.directive, s⟩
  else if TokenNumber s then some ⟨TokenType.number, s⟩
  else if TokenIdentifier s then some ⟨TokenType.identifier, s⟩
  else if TokenComma s then some ⟨TokenType.comma, s⟩
  else none

/-- The `strings.ReplaceAll(line, ",", " , ")` step of `tokenize`. -/
def expandCommas : List Char → List Char
  | [] => []
  | c :: rest =>
    if c = ',' then ' ' :: ',' :: ' ' :: expandCommas rest
    else c :: expandCommas rest

/-- Whitespace as collapsed by `tokenize`'s regex `[ \t\n]+`. -/
def isWhiteChar (c : Char) : Bool :=
  c = ' ' || c = '\t' || c = '\n'

/-- Accumulating splitter behind `splitWords`. -/
def splitWordsAux : List Char → List Char → List (List Char)
  | [], acc => if acc.isEmpty then [] else [acc.reverse]
  | c :: rest, acc =>
    if isWhiteChar c then
      if acc.isEmpty then splitWordsAux rest []
      else acc.reverse :: splitWordsAux rest []
    else splitWordsAux rest (c :: acc)

/-- The whitespace handling of `tokenize`: collapsing runs of `[ \t\n]` to one
space, trimming, splitting on spaces and dropping empty pieces is exactly
splitting into maximal whitespace-free words. -/
def splitWords (l : List Char) : List (List Char) :=
  splitWordsAux l []

/-- tokenize from assembler.go: strip from the first `/` (comment), expand
commas, split on whitespace and classify every word; `none` is the
`bad token` error. -/
def tokenize (line : List Char) : Option (List Token) :=
  let noComment := line.takeWhile (fun c => c != '/')
  (splitWords (expandCommas noComment)).mapM classify

/-! ## Number parsing (assembler.go parseWord / strconv.ParseInt) -/

/-- Value of one digit character for a given base, as `strconv.ParseInt`
accepts them (`0-9`, then letters case-insensitively). -/
def digitVal (base : Nat) (c : Char) : Option Nat :=
  let v : Nat :=
    if '0' ≤ c && c ≤ '9' then c.toNat - '0'.toNat
    else if 'a' ≤ c && c ≤ 'z' then c.toNat - 'a'.toNat + 10
    else if 'A' ≤ c && c ≤ 'Z' then c.toNat - 'A'.toNat + 10
    else 99
  if v < base then some v else none

/-- Digit-string accumulator behind `parseDigits`. -/
def parseDigitsAux (base : Nat) : List Char → Nat → Option Nat
  | [], acc => some acc
  | c :: rest, acc =>
    match digitVal base c with
    | none => none
    | some v => parseDigitsAux base rest (acc * base + v)

/-- Unsigned digit string in the given base; `none` on an empty string or an
invalid digit, mirroring `strconv.ParseUint`'s syntax errors. -/
def parseDigits (base : Nat) (s : List Char) : Option Nat :=
  if s.isEmpty then none else parseDigitsAux base s 0

/-- `strconv.ParseInt(num, base, 0)` on a 64-bit platform: optional sign, then
digits of the base; a value outside the `int64` range is an error (Go reports
`ErrRange`, and every caller in this repository treats any non-nil error
alike). -/
def parseIntGo (s : List Char) (base : Nat) : Option Int :=
  match s with
  | '-' :: rest =>
    (parseDigits base rest).bind fun v =>
      if v ≤ 9223372036854775808 then some (-(v : Int)) else none
  | '+' :: rest =>
    (parseDigits base rest).bind fun v =>
      if v ≤ 9223372036854775807 then some (v : Int) else none
  | _ =>
    (parseDigits base s).bind fun v =>
      if v ≤ 9223372036854775807 then some (v : Int) else none

/-- parseWord from assembler.go.  Note the faithful rendering of
`if err != nil || out < minWordInt || out > maxWordInt { return 0, err }`:
when parsing succeeded (`err == nil`) but the value is out of the Word range,
the Go function returns `(0, nil)` — success with value 0 — because the
returned `err` is nil.  Hence `some 0` in that branch. -/
def parseWord (num : List Char) (base : Nat) : Option Int :=
  match parseIntGo num base with
  | none => none
  | some out =>
    if out < minWordInt ∨ out > maxWordInt then some 0 else some out

/-! ## The two-pass assembler (assembler.go Assemble) -/

/-- The symbol table: Go `map[string]Word`, embedded as an association list
where an insert conses (so the most recent binding wins on lookup, matching
map overwrite). -/
abbrev Symtab := List (List Char × Int)

/-- Go `symtab[identifier]` in pass 2: a missing key yields the zero value 0.
No `ok` check is performed by the source. -/
def symLookup (symtab : Symtab) (k : List Char) : Int :=
  ((symtab.find? (fun p => p.1 == k)).map Prod.snd).getD 0

/-- First pass of `Assemble`: walk the lines, keep an address counter `addr`
(a Go `int`, hence `wrap64` on increment), bind `Identifier Comma ...` lines
in the symbol table, and fail on any tokenize error. -/
def pass1 : List (List Char) → Symtab → Int → Option Symtab
  | [], symtab, _ => some symtab
  | line :: rest, symtab, addr =>
    match tokenize line with
    | none => none
    | some [] => pass1 rest symtab addr
    | some [_] => pass1 rest symtab (wrap64 (addr + 1))
    | some (t0 :: t1 :: _) =>
      pass1 rest
        (if t0.typ = TokenType.identifier ∧ t1.typ = TokenType.comma
         then (t0.str, addr) :: symtab else symtab)
        (wrap64 (addr + 1))

/-- `Word(opcode<<12)` followed by `|= operand` where the operand has already
been masked to 12 bits: the Go bitwise-or of the disjoint fields. -/
def encode (op operand : Int) : Int :=
  Int.ofNat ((op.toNat <<< 12) ||| operand.toNat)

/-- Go `& 0xFFF` on a (possibly negative) `int`: the low 12 bits. -/
def mask12 (n : Int) : Int :=
  Int.emod n 4096

/-- The label-prefix drop at the top of pass 2: if the line starts
`Identifier Comma`, those two tokens are removed. -/
def dropLabel (tokens : List Token) : List Token :=
  match tokens with
  | t0 :: t1 :: rest =>
    if t0.typ = TokenType.identifier ∧ t1.typ = TokenType.comma then rest
    else tokens
  | _ => tokens

/-- The opcodes legal with an operand token (pass 2's two-token cases):
all but Input, Output, Halt and Clear. -/
def legalOperandOp (op : Int) : Bool :=
  op == OpJnS || op == OpLoad || op == OpStore || op == OpAdd || op == OpSubt ||
  op == OpSkipcond || op == OpJump || op == OpAddI || op == OpJumpI ||
  op == OpLoadI || op == OpStoreI || op == OpDump

/-- Pass 2's per-line `switch hashTokens(tokens)` (after the label prefix has
been dropped): `some none` emits no word (empty line), `some (some w)` emits
the word `w`, `none` is the SyntaxError of the default branches. -/
def encodeLine (symtab : Symtab) (tokens : List Token) : Option (Option Int) :=
  match tokens with
  | [] => some none
  | [t0] =>
    if t0.typ = TokenType.instruction then
      let op := opcodeVal t0.str
      if op == OpInput || op == OpOutput || op == OpHalt || op == OpClear then
        some (some (encode op 0))
      else none
    else none
  | [t0, t1] =>
    if t0.typ = TokenType.instruction ∧ t1.typ = TokenType.identifier then
      let op := opcodeVal t0.str
      if legalOperandOp op then
        some (some (encode op (mask12 (symLookup symtab t1.str))))
      else none
    else if t0.typ = TokenType.instruction ∧ t1.typ = TokenType.number then
      let op := opcodeVal t0.str
      if legalOperandOp op then
        match parseWord t1.str 16 with
        | none => none
        | some n => some (some (encode op (mask12 n)))
      else none
    else if t0.typ = TokenType.directive ∧ t1.typ = TokenType.number then
      let base := if t0.str == "HEX".data then 16 else 10
      match parseWord t1.str base with
      | none => none
      | some n => some (some n)
    else none
  | _ => none

/-- Second pass of `Assemble`: re-tokenize each line (a tokenize failure here
is unreachable, pass 1 already checked; it is rendered as an error), drop a
label prefix, and append the encoded word if the line produces one. -/
def pass2 (symtab : Symtab) : List (List Char) → Option (List Int)
  | [] => some []
  | line :: rest =>
    match tokenize line with
    | none => none
    | some tokens =>
      match encodeLine symtab (dropLabel tokens) with
      | none => none
      | some none => pass2 symtab rest
      | some (some w) => (pass2 symtab rest).map (w :: ·)

/-- `strings.Split(s, "\n")` (empty pieces kept), accumulating helper. -/
def splitOnNlAux : List Char → List Char → List (List Char)
  | [], acc => [acc.reverse]
  | c :: rest, acc =>
    if c = '\n' then acc.reverse :: splitOnNlAux rest []
    else splitOnNlAux rest (c :: acc)

/-- `strings.Split(string(raw), "\n")` from `Assemble`. -/
def splitOnNl (s : List Char) : List (List Char) :=
  splitOnNlAux s []

/-- The core of `Assemble`, once the source has been split into lines:
pass 1 builds the symbol table, pass 2 produces the memory image. -/
def AssembleLines (lines : List (List Char)) : Option (List Int) :=
  match pass1 lines [] 0 with
  | none => none
  | some symtab => pass2 symtab lines

/-- Assemble from assembler.go.  `none` is the SyntaxError outcome. -/
def Assemble (src : String) : Option (List Int) :=
  AssembleLines (splitOnNl src.data)

/-! ## The machine (machine.go, maria.go) -/

/-- The Machine record of machine.go.  All registers are Go `int` Words.
The memory is the 4096-word array, embedded as a total function whose callers
bounds-check every access exactly where Go would panic; `stdin` embeds the
external console line source consumed by the Input instruction. -/
structure Machine where
  AC : Int
  PC : Int
  MAR : Int
  MBR : Int
  IR : Int
  IN : Int
  OUT : Int
  M : Int → Int
  stdin : List (List Char)

/-- Outcome of executing one instruction (or of a whole run).
`ok m` continues with state `m`; `exit code m` is `os.Exit(code)` — the
hosting process terminates, nothing is returned to the caller of `Run`, and
`m` records the machine state at that moment; `crash m` is a Go runtime panic
(array index out of range, or calling the `nil` entry of the `instruction`
map for an unmapped opcode). -/
inductive Exec where
  | ok (m : Machine)
  | exit (code : Int) (m : Machine)
  | crash (m : Machine)

/-- Functional update of one memory cell (`m.M[a] = v`). -/
def memSet (M : Int → Int) (a v : Int) : Int → Int :=
  fun b => if b = a then v else M b

/-- Load instruction from maria.go: `AC ← M[x]` via MAR/MBR. -/
def Load (m : Machine) (x : Int) : Exec :=
  let m := {m with MAR := x}
  if 0 ≤ m.MAR ∧ m.MAR < 4096 then
    let m := {m with MBR := m.M m.MAR}
    Exec.ok {m with AC := m.MBR}
  else Exec.crash m

/-- Store instruction from maria.go: `M[x] ← AC` via MAR/MBR. -/
def Store (m : Machine) (x : Int) : Exec :=
  let m := {m with MAR := x}
  let m := {m with MBR := m.AC}
  if 0 ≤ m.MAR ∧ m.MAR < 4096 then
    Exec.ok {m with M := memSet m.M m.MAR m.MBR}
  else Exec.crash m

/-- Add instruction from maria.go: `AC += M[x]` (Go `int` addition). -/
def Add (m : Machine) (x : Int) : Exec :=
  let m := {m with MAR := x}
  if 0 ≤ m.MAR ∧ m.MAR < 4096 then
    let m := {m with MBR := m.M m.MAR}
    Exec.ok {m with AC := wrap64 (m.AC + m.MBR)}
  else Exec.crash m

/-- Subt instruction from maria.go: `AC -= M[x]` (Go `int` subtraction). -/
def Subt (m : Machine) (x : Int) : Exec :=
  let m := {m with MAR := x}
  if 0 ≤ m.MAR ∧ m.MAR < 4096 then
    let m := {m with MBR := m.M m.MAR}
    Exec.ok {m with AC := wrap64 (m.AC - m.MBR)}
  else Exec.crash m

/-- The retry loop of the Input instruction: scan console lines until one
parses as a base-16 Word; if the stream ends first, `x` keeps its zero value
(`var x Word`). -/
def inputLoop : List (List Char) → Int × List (List Char)
  | [] => (0, [])
  | s :: rest =>
    match parseWord s 16 with
    | none => inputLoop rest
    | some v => (v, rest)

/-- Input instruction from maria.go: read a Word from the console
(`IN ← value; AC ← IN`). -/
def Input (m : Machine) (_ : Int) : Exec :=
  let p := inputLoop m.stdin
  let m := {m with stdin := p.2}
  let m := {m with IN := p.1}
  Exec.ok {m with AC := m.IN}

/-- Output instruction from maria.go: `OUT ← AC` (the hex print goes to the
external console). -/
def Output (m : Machine) (_ : Int) : Exec :=
  Exec.ok {m with OUT := m.AC}

/-- Halt instruction from maria.go: `os.Exit(0)` — the process terminates
with a success code; nothing is returned to the caller of `Run`. -/
def Halt (m : Machine) (_ : Int) : Exec :=
  Exec.exit 0 m

/-- Skipcond instruction from maria.go: selector `x >> 10 & 3` (arithmetic
shift, so `Int.fdiv x 1024`, then low two bits); selectors 0/1/2 skip on
`AC < 0` / `AC == 0` / `AC > 0`; selector 3 prints `bad instruction:` with
the IR value to stderr and calls `os.Exit(1)` (the exited state carries the
IR being reported).  A Go `switch` with no matching case does nothing, but
the selector is always in 0..3. -/
def Skipcond (m : Machine) (x : Int) : Exec :=
  let sel := Int.emod (Int.fdiv x 1024) 4
  if sel = 0 then
    Exec.ok (if m.AC < 0 then {m with PC := wrap64 (m.PC + 1)} else m)
  else if sel = 1 then
    Exec.ok (if m.AC = 0 then {m with PC := wrap64 (m.PC + 1)} else m)
  else if sel = 2 then
    Exec.ok (if 0 < m.AC then {m with PC := wrap64 (m.PC + 1)} else m)
  else if sel = 3 then
    Exec.exit 1 m
  else Exec.ok m

/-- Jump instruction from maria.go: `PC ← x`. -/
def Jump (m : Machine) (x : Int) : Exec :=
  Exec.ok {m with PC := x}

/-- JnS instruction from maria.go, statement by statement:
`MAR ← x; MBR ← PC; M[MAR] ← MBR; MBR ← x; AC ← 1; AC += MBR; PC ← AC`. -/
def JnS (m : Machine) (x : Int) : Exec :=
  let m := {m with MAR := x}
  let m := {m with MBR := m.PC}
  if 0 ≤ m.MAR ∧ m.MAR < 4096 then
    let m := {m with M := memSet m.M m.MAR m.MBR}
    let m := {m with MBR := x}
    let m := {m with AC := 1}
    let m := {m with AC := wrap64 (m.AC + m.MBR)}
    Exec.ok {m with PC := m.AC}
  else Exec.crash m

/-- Clear instruction from maria.go: `AC ← 0`. -/
def Clear (m : Machine) (_ : Int) : Exec :=
  Exec.ok {m with AC := 0}

/-- AddI instruction from maria.go: indirect add, two memory dereferences. -/
def AddI (m : Machine) (x : Int) : Exec :=
  let m := {m with MAR := x}
  if 0 ≤ m.MAR ∧ m.MAR < 4096 then
    let m := {m with MBR := m.M m.MAR}
    let m := {m with MAR := m.MBR}
    if 0 ≤ m.MAR ∧ m.MAR < 4096 then
      let m := {m with MBR := m.M m.MAR}
      Exec.ok {m with AC := wrap64 (m.AC + m.MBR)}
    else Exec.crash m
  else Exec.crash m

/-- JumpI instruction from maria.go: `PC ← M[x]`. -/
def JumpI (m : Machine) (x : Int) : Exec :=
  let m := {m with MAR := x}
  if 0 ≤ m.MAR ∧ m.MAR < 4096 then
    let m := {m with MBR := m.M m.MAR}
    Exec.ok {m with PC := m.MBR}
  else Exec.crash m

/-- LoadI instruction from maria.go: indirect load. -/
def LoadI (m : Machine) (x : Int) : Exec :=
  let m := {m with MAR := x}
  if 0 ≤ m.MAR ∧ m.MAR < 4096 then
    let m := {m with MBR := m.M m.MAR}
    let m := {m with MAR := m.MBR}
    if 0 ≤ m.MAR ∧ m.MAR < 4096 then
      let m := {m with MBR := m.M m.MAR}
      Exec.ok {m with AC := m.MBR}
    else Exec.crash m
  else Exec.crash m

/-- StoreI instruction from maria.go: indirect store. -/
def StoreI (m : Machine) (x : Int) : Exec :=
  let m := {m with MAR := x}
  if 0 ≤ m.MAR ∧ m.MAR < 4096 then
    let m := {m with MBR := m.M m.MAR}
    let m := {m with MAR := m.MBR}
    let m := {m with MBR := m.AC}
    if 0 ≤ m.MAR ∧ m.MAR < 4096 then
      Exec.ok {m with M := memSet m.M m.MAR m.MBR}
    else Exec.crash m
  else Exec.crash m

/-- Dump instruction from maria.go: prints registers and memory 0..x-1 to the
console and changes no machine state (its reads stay below `x < 4096`). -/
def Dump (m : Machine) (_ : Int) : Exec :=
  Exec.ok m

/-- The `instruction` map of maria.go: opcodes 0 through 15 and nothing else.
Looking up any other key yields Go's zero value for a function type — `nil` —
whose call panics; that missing-entry case is `none` here. -/
def instruction (op : Int) : Option (Machine → Int → Exec) :=
  if op = OpJnS then some JnS
  else if op = OpLoad then some Load
  else if op = OpStore then some Store
  else if op = OpAdd then some Add
  else if op = OpSubt then some Subt
  else if op = OpInput then some Input
  else if op = OpOutput then some Output
  else if op = OpHalt then some Halt
  else if op = OpSkipcond then some Skipcond
  else if op = OpJump then some Jump
  else if op = OpClear then some Clear
  else if op = OpAddI then some AddI
  else if op = OpJumpI then some JumpI
  else if op = OpLoadI then some LoadI
  else if op = OpStoreI then some StoreI
  else if op = OpDump then some Dump
  else none

/-- One iteration of the `Machine.Run` fetch-decode-execute loop:
`MAR ← PC; MBR ← M[PC]; IR ← MBR; PC++;` then dispatch on `IR >> 12` with
operand `IR & 0xFFF`.  The memory fetch panics when PC is outside the array,
and the dispatch panics on an unmapped opcode. -/
def step (m : Machine) : Exec :=
  let m := {m with MAR := m.PC}
  if (0 : Int) ≤ m.PC ∧ m.PC < (4096 : Int) then
    let m := {m with MBR := m.M m.PC}
    let m := {m with IR := m.MBR}
    let m := {m with PC := wrap64 (m.PC + 1)}
    match instruction (Int.fdiv m.IR 4096) with
    | none => Exec.crash m
    | some f => f m (Int.emod m.IR 4096)
  else Exec.crash m

/-- The `for {}` loop of `Machine.Run`, cut off by fuel: `Exec.ok m` as a
result of `run` means the fuel ran out with the machine still running (the Go
loop itself never returns; it only stops through `os.Exit` or a panic). -/
def run : Nat → Machine → Exec
  | 0, m => Exec.ok m
  | fuel + 1, m =>
    match step m with
    | Exec.ok m2 => run fuel m2
    | r => r

/-- Copying the assembled program into memory from address 0
(`for i, w := range program { m.M[i] = w }`). -/
def storeProg (M : Int → Int) (p : List Int) : Int → Int :=
  fun a => if 0 ≤ a ∧ a < (p.length : Int) then p.getD a.toNat 0 else M a

/-- The capacity step of `Machine.Load` in machine.go: after a successful
`Assemble`, `if len(program) >= machineMemory` is the `program too long`
error; otherwise the program is copied into memory from address 0. -/
def loadProgram (m : Machine) (p : List Int) : Option Machine :=
  if machineMemory ≤ p.length then none
  else some {m with M := storeProg m.M p}

/-- Machine.Load from machine.go: assemble, check capacity, copy. `none`
covers both the SyntaxError and the `program too long` error returns. -/
def MachineLoad (m : Machine) (src : String) : Option Machine :=
  (Assemble src).bind (loadProgram m)

/-! ## Concrete machines used by the theorems -/

/-- The machine as `main` creates it: every register zero, memory all zeros,
no console input pending. -/
def zeroMachine : Machine :=
  { AC := 0, PC := 0, MAR := 0, MBR := 0, IR := 0, IN := 0, OUT := 0,
    M := fun _ => 0, stdin := [] }

/-- A fresh machine whose memory holds the given program from address 0. -/
def mkMachine (p : List Int) : Machine :=
  {zeroMachine with M := storeProg zeroMachine.M p}

/-- The machine holding the single-word program `Halt` (word `7 << 12`). -/
def haltMachine : Machine :=
  mkMachine [28672]

/-- The machine holding a single Skipcond word with selector bits 3
(`8 << 12 | 0xC00` = 35840). -/
def skip3Machine : Machine :=
  mkMachine [35840]

/-- The exit code of a process-terminating outcome. -/
def exitCode : Exec → Option Int
  | Exec.exit c _ => some c
  | _ => none

/-- The machine state at the moment of `os.Exit`. -/
def exitState : Exec → Option Machine
  | Exec.exit _ m => some m
  | _ => none

/-- The machine state of a continuing outcome. -/
def okState : Exec → Option Machine
  | Exec.ok m => some m
  | _ => none

/-- Whether an outcome is a Go runtime panic. -/
def isCrash : Exec → Bool
  | Exec.crash _ => true
  | _ => false

/-- A machine about to execute `Add 0` with `AC = 1` and `M[0] = 65535`
(the largest Word literal a directive can produce). -/
def addDemoMachine : Machine :=
  {zeroMachine with AC := 1, M := fun a => if a = 0 then 65535 else 0}

/-! ## Helper lemmas about 64-bit wrapping -/

theorem wrap64_eq_self (n : Int) (h1 : -9223372036854775808 ≤ n)
    (h2 : n < 9223372036854775808) : wrap64 n = n := by
  unfold wrap64
  rw [Int.emod_eq_of_lt (by omega) (by omega)]
  omega

theorem wrap64_emod (n : Int) :
    wrap64 n % 18446744073709551616 = n % 18446744073709551616 := by
  unfold wrap64
  omega

theorem wrap64_lb (n : Int) : -9223372036854775808 ≤ wrap64 n := by
  unfold wrap64
  have := Int.emod_nonneg (n + 9223372036854775808)
    (by norm_num : (18446744073709551616 : Int) ≠ 0)
  omega

theorem wrap64_ub (n : Int) : wrap64 n < 9223372036854775808 := by
  unfold wrap64
  have := Int.emod_lt_of_pos (n + 9223372036854775808)
    (by norm_num : (0 : Int) < 18446744073709551616)
  omega

/-! ## Claim theorems -/

/-- Claim C1 (code bug): the claim demands a syntax error for an instruction
whose identifier operand is unbound, but `Assemble` reads `symtab[identifier]`
without an `ok` check, so the missing key yields the map's zero value and the
program `Load foo` (with `foo` never defined) assembles successfully to the
single word `0x1000` — opcode Load, operand field 0.  The conjuncts show the
successful assembly, the zero-value default of the symbol-table lookup, and
that the emitted word's 12-bit operand field is 0. -/
theorem unresolved_symbol_defaults_to_zero :
    Assemble "Load foo" = some [4096] ∧
    symLookup [] ("foo".data) = 0 ∧
    mask12 4096 = 0 :=
  ⟨rfl, rfl, rfl⟩

/-- Claim C3 (code bug): the claim demands a syntax error for out-of-range
numeric literals, but `parseWord` executes `return 0, err` with a nil `err`
when the parse succeeded and only the range check failed, so the literal is
silently replaced by 0: `DEC 65536` and `DEC -32769` assemble to the word 0,
and the operand `Add 10000` (hex, value 65536) assembles with operand field 0
instead of failing. -/
theorem out_of_range_literal_becomes_zero :
    parseWord ("65536".data) 10 = some 0 ∧
    Assemble "DEC 65536" = some [0] ∧
    Assemble "DEC -32769" = some [0] ∧
    Assemble "Add 10000" = some [12288] :=
  ⟨rfl, rfl, rfl, rfl⟩

/-- Claim C9 (confirmed): the `instruction` map holds exactly the opcodes
0..15; the assembler accepts `DEC` directives with negative literals down to
-32768 and stores them as negative memory words; fetching such a word makes
`IR >> 12` (an arithmetic shift, here `Int.fdiv (-1) 4096 = -1`) a negative
opcode with no table entry, so the run loop's dispatch calls a nil map entry —
a runtime panic (`Exec.crash`), not a reported fatal condition. -/
theorem negative_word_crashes_dispatch :
    Assemble "DEC -1" = some [-1] ∧
    Assemble "DEC -32768" = some [-32768] ∧
    ((List.range 16).all fun n => (instruction (Int.ofNat n)).isSome) = true ∧
    instruction (-1) = none ∧
    instruction 16 = none ∧
    Int.fdiv (-1) 4096 = -1 ∧
    isCrash (run 1 (mkMachine [-1])) = true :=
  ⟨rfl, rfl, rfl, rfl, rfl, rfl, rfl⟩

/-- Claim C8, counterexample: the claim says every register except PC and IR
stays at its initial zero value when the single-word program `Halt` runs, but
the fetch cycle copies `M[PC]` into MBR before IR, so MBR also ends up holding
the Halt word 28672 rather than 0. -/
theorem halt_run_mbr_changed :
    (exitState (run 2 haltMachine)).map Machine.MBR ≠ some 0 := by
  decide

/-- Claim C8, amended: running the single-word program `Halt` terminates after
one cycle (through `os.Exit(0)`, embedded as the exit outcome) with AC, MAR,
IN and OUT at their initial zero values, PC advanced by one, and BOTH IR and
MBR holding the Halt word 28672 (MAR is rewritten with PC's old value 0, so it
happens to equal its initial value). -/
theorem halt_run_final_state :
    exitCode (run 2 haltMachine) = some 0 ∧
    (exitState (run 2 haltMachine)).map Machine.AC = some 0 ∧
    (exitState (run 2 haltMachine)).map Machine.PC = some 1 ∧
    (exitState (run 2 haltMachine)).map Machine.MAR = some 0 ∧
    (exitState (run 2 haltMachine)).map Machine.MBR = some 28672 ∧
    (exitState (run 2 haltMachine)).map Machine.IR = some 28672 ∧
    (exitState (run 2 haltMachine)).map Machine.IN = some 0 ∧
    (exitState (run 2 haltMachine)).map Machine.OUT = some 0 :=
  ⟨rfl, rfl, rfl, rfl, rfl, rfl, rfl, rfl⟩

/-- Claim C5, counterexample: the claim says halting and the invalid-Skipcond
condition are signalled to the caller of the run loop without terminating the
hosting process.  In the code both paths call `os.Exit` (embedded as the
`Exec.exit` outcome, which `run` can only propagate): the single-`Halt`
program exits the process with code 0 and the single-`Skipcond`-selector-3
program exits it with code 1; neither run produces a continuing (`Exec.ok`)
result that a caller could observe, and `Machine.Run` itself has no return
path at all. -/
theorem halt_and_skipcond_exit_process :
    exitCode (run 2 haltMachine) = some 0 ∧
    exitCode (run 2 skip3Machine) = some 1 ∧
    okState (run 2 haltMachine) = none ∧
    okState (run 2 skip3Machine) = none :=
  ⟨rfl, rfl, rfl, rfl⟩

/-- Claim C5, amended: `Halt` terminates the hosting process with exit code 0
and a Skipcond whose selector bits are 3 terminates it with exit code 1 (after
printing the IR value); the outcome is process termination via `os.Exit`, not
a value returned to the caller of the run loop. -/
theorem halt_exit_zero_skipcond_exit_one (m : Machine) (x : Int) :
    Halt m x = Exec.exit 0 m ∧
    (Int.emod (Int.fdiv x 1024) 4 = 3 → Skipcond m x = Exec.exit 1 m) := by
  constructor
  · rfl
  · intro h
    simp [Skipcond, h]

/-- Witness for the amended C5 theorem at the concrete operand 3072
(selector bits 3) on the zero machine. -/
theorem halt_exit_zero_skipcond_exit_one_witness :
    Halt zeroMachine 3072 = Exec.exit 0 zeroMachine ∧
    Skipcond zeroMachine 3072 = Exec.exit 1 zeroMachine :=
  ⟨(halt_exit_zero_skipcond_exit_one zeroMachine 3072).1,
   (halt_exit_zero_skipcond_exit_one zeroMachine 3072).2 (by decide)⟩

/-- Claim C6, counterexample: the claim says `Add` yields
`AC + M[x] mod 2^16`.  With `AC = 1` and `M[0] = 65535` the code computes the
Go `int` sum 65536, not `(1 + 65535) % 2^16 = 0`: no 16-bit reduction
happens. -/
theorem add_no_16bit_wrap :
    (okState (Add addDemoMachine 0)).map Machine.AC = some 65536 ∧
    (okState (Add addDemoMachine 0)).map Machine.AC ≠ some ((1 + 65535) % 65536) :=
  ⟨rfl, by decide⟩

/-- Claim C6, amended: `Word` is Go `int`, so `Add` and `Subt` wrap the
accumulator at the word's NATIVE width of 64 bits, not at 16 bits: the new AC
is congruent to the exact sum (difference) modulo 2^64 and lies in
[-2^63, 2^63); no reduction modulo 2^16 is applied. -/
theorem add_subt_wrap64 (m : Machine) (x : Int) (h1 : 0 ≤ x) (h2 : x < 4096) :
    ∃ ma ms, Add m x = Exec.ok ma ∧ Subt m x = Exec.ok ms ∧
      ma.AC % 18446744073709551616 = (m.AC + m.M x) % 18446744073709551616 ∧
      -9223372036854775808 ≤ ma.AC ∧ ma.AC < 9223372036854775808 ∧
      ms.AC % 18446744073709551616 = (m.AC - m.M x) % 18446744073709551616 ∧
      -9223372036854775808 ≤ ms.AC ∧ ms.AC < 9223372036854775808 := by
  refine ⟨{m with MAR := x, MBR := m.M x, AC := wrap64 (m.AC + m.M x)},
          {m with MAR := x, MBR := m.M x, AC := wrap64 (m.AC - m.M x)},
          ?_, ?_, wrap64_emod _, wrap64_lb _, wrap64_ub _,
          wrap64_emod _, wrap64_lb _, wrap64_ub _⟩
  · simp only [Add]
    split
    · rfl
    · next h => exact absurd ⟨h1, h2⟩ h
  · simp only [Subt]
    split
    · rfl
    · next h => exact absurd ⟨h1, h2⟩ h

/-- Witness for the amended C6 theorem on the concrete demo machine
(`AC = 1`, `M[0] = 65535`) at operand 0. -/
theorem add_subt_wrap64_witness :
    ∃ ma ms, Add addDemoMachine 0 = Exec.ok ma ∧ Subt addDemoMachine 0 = Exec.ok ms ∧
      ma.AC % 18446744073709551616 =
        (addDemoMachine.AC + addDemoMachine.M 0) % 18446744073709551616 ∧
      -9223372036854775808 ≤ ma.AC ∧ ma.AC < 9223372036854775808 ∧
      ms.AC % 18446744073709551616 =
        (addDemoMachine.AC - addDemoMachine.M 0) % 18446744073709551616 ∧
      -9223372036854775808 ≤ ms.AC ∧ ms.AC < 9223372036854775808 :=
  add_subt_wrap64 addDemoMachine 0 (by decide) (by decide)

/-- Claim C7 (confirmed): `Skipcond` reads the 2-bit selector
`(x >> 10) & 3` — `Int.emod (Int.fdiv x 1024) 4`, since Go's `>>` on `int` is
an arithmetic shift — and increments PC by one exactly when the selector is 0
and `AC < 0`, 1 and `AC == 0`, or 2 and `AC > 0`; selector 3 terminates the
run with the error exit (code 1), printing the instruction register value
carried in the exited machine state, so no further instruction executes
(`run` stops on any non-ok outcome by definition). -/
theorem skipcond_semantics (m : Machine) (x : Int) :
    (Int.emod (Int.fdiv x 1024) 4 = 0 →
      Skipcond m x = Exec.ok (if m.AC < 0 then {m with PC := wrap64 (m.PC + 1)} else m)) ∧
    (Int.emod (Int.fdiv x 1024) 4 = 1 →
      Skipcond m x = Exec.ok (if m.AC = 0 then {m with PC := wrap64 (m.PC + 1)} else m)) ∧
    (Int.emod (Int.fdiv x 1024) 4 = 2 →
      Skipcond m x = Exec.ok (if 0 < m.AC then {m with PC := wrap64 (m.PC + 1)} else m)) ∧
    (Int.emod (Int.fdiv x 1024) 4 = 3 → Skipcond m x = Exec.exit 1 m) := by
  refine ⟨fun h => ?_, fun h => ?_, fun h => ?_, fun h => ?_⟩ <;>
    simp [Skipcond, h]

/-- Witness for the C7 theorem: the four selector values exercised at the
concrete operands 0, 1024, 2048 and 3072 on the zero machine. -/
theorem skipcond_semantics_witness :
    Skipcond zeroMachine 0 =
      Exec.ok (if zeroMachine.AC < 0
               then {zeroMachine with PC := wrap64 (zeroMachine.PC + 1)} else zeroMachine) ∧
    Skipcond zeroMachine 1024 =
      Exec.ok (if zeroMachine.AC = 0
               then {zeroMachine with PC := wrap64 (zeroMachine.PC + 1)} else zeroMachine) ∧
    Skipcond zeroMachine 2048 =
      Exec.ok (if 0 < zeroMachine.AC
               then {zeroMachine with PC := wrap64 (zeroMachine.PC + 1)} else zeroMachine) ∧
    Skipcond zeroMachine 3072 = Exec.exit 1 zeroMachine :=
  ⟨(skipcond_semantics zeroMachine 0).1 (by decide),
   (skipcond_semantics zeroMachine 1024).2.1 (by decide),
   (skipcond_semantics zeroMachine 2048).2.2.1 (by decide),
   (skipcond_semantics zeroMachine 3072).2.2.2 (by decide)⟩

/-- Claim C10 (confirmed): for every machine state and in-range operand `x`,
`JnS` performs the documented effects `M[x] ← PC` (the return address) and
`PC ← x + 1`, and in addition always overwrites the accumulator: afterwards
`AC = x + 1`, the very value written to PC (the sequence
`AC ← 1; AC += MBR; PC ← AC` routes the target address through AC), so a
subroutine call always destroys the caller's accumulator.  All other memory
cells are untouched. -/
theorem jns_clobbers_ac (m : Machine) (x : Int) (h1 : 0 ≤ x) (h2 : x < 4096) :
    ∃ m2, JnS m x = Exec.ok m2 ∧ m2.AC = x + 1 ∧ m2.PC = m2.AC ∧ m2.PC = x + 1 ∧
      m2.M x = m.PC ∧ (∀ a, a ≠ x → m2.M a = m.M a) := by
  refine ⟨{m with MAR := x, MBR := x, M := memSet m.M x m.PC, AC := wrap64 (1 + x), PC := wrap64 (1 + x)}, ?_, ?_, rfl, ?_, ?_, ?_⟩
  · simp only [JnS]
    split
    · rfl
    · next h => exact absurd ⟨h1, h2⟩ h
  · show wrap64 (1 + x) = x + 1
    rw [wrap64_eq_self (1 + x) (by omega) (by omega)]
    omega
  · show wrap64 (1 + x) = x + 1
    rw [wrap64_eq_self (1 + x) (by omega) (by omega)]
    omega
  · show memSet m.M x m.PC x = m.PC
    simp [memSet]
  · intro a ha
    show memSet m.M x m.PC a = m.M a
    simp [memSet, ha]

/-- Witness for the C10 theorem on the zero machine at operand 5. -/
theorem jns_clobbers_ac_witness :
    ∃ m2, JnS zeroMachine 5 = Exec.ok m2 ∧ m2.AC = 5 + 1 ∧ m2.PC = m2.AC ∧
      m2.PC = 5 + 1 ∧ m2.M 5 = zeroMachine.PC ∧
      (∀ a, a ≠ 5 → m2.M a = zeroMachine.M a) :=
  jns_clobbers_ac zeroMachine 5 (by decide) (by decide)

/-- Pass 1 leaves the symbol table unchanged on a program of `Halt` lines
(each is a single token, so only the address counter advances). -/
theorem pass1_halt_lines (n : Nat) (st : Symtab) (a : Int) :
    pass1 (List.replicate n ("Halt".data)) st a = some st := by
  induction n generalizing a with
  | zero => rfl
  | succ k ih =>
    show pass1 (("Halt".data) :: List.replicate k ("Halt".data)) st a = some st
    exact ih (wrap64 (a + 1))

/-- Pass 2 turns a program of `n` `Halt` lines into `n` copies of the word
`7 << 12 = 28672`, for any symbol table. -/
theorem pass2_halt_lines (n : Nat) (st : Symtab) :
    pass2 st (List.replicate n ("Halt".data)) = some (List.replicate n 28672) := by
  induction n with
  | zero => rfl
  | succ k ih =>
    show (pass2 st (List.replicate k ("Halt".data))).map ((28672 : Int) :: ·) =
      some (List.replicate (k + 1) (28672 : Int))
    rw [ih]
    rfl

/-- Claim C4, counterexample: a 4096-line `Halt` program assembles to a memory
image of length exactly `machineMemory = 4096` — which fills memory exactly —
yet `Machine.Load`'s capacity test `len(program) >= machineMemory` rejects it,
while the claim says a program of exactly 4096 words is accepted. -/
theorem load_rejects_exact_capacity :
    AssembleLines (List.replicate 4096 ("Halt".data)) =
      some (List.replicate 4096 28672) ∧
    (List.replicate 4096 (28672 : Int)).length = machineMemory ∧
    loadProgram zeroMachine (List.replicate 4096 (28672 : Int)) = none := by
  refine ⟨?_, by rw [List.length_replicate]; rfl, ?_⟩
  · unfold AssembleLines
    rw [pass1_halt_lines 4096 [] 0]
    exact pass2_halt_lines 4096 []
  · unfold loadProgram
    rw [if_pos (show machineMemory ≤ (List.replicate 4096 (28672 : Int)).length by
      rw [List.length_replicate]; exact Nat.le_refl 4096)]

/-- Claim C4, amended: loading an assembled image fails with the capacity
error exactly when its length is AT LEAST the 4096-word machine memory (the
test is `>=`, not `>`): images of 4095 words or fewer are copied into memory
from address 0 (leaving the rest untouched), while an image of exactly 4096
words is rejected before execution. -/
theorem load_capacity_check (m : Machine) (p : List Int) :
    (machineMemory ≤ p.length → loadProgram m p = none) ∧
    (p.length < machineMemory →
      ∃ m2, loadProgram m p = some m2 ∧
        (∀ a : Int, 0 ≤ a → a < (p.length : Int) → m2.M a = p.getD a.toNat 0) ∧
        (∀ a : Int, ¬(0 ≤ a ∧ a < (p.length : Int)) → m2.M a = m.M a)) := by
  constructor
  · intro h
    unfold loadProgram
    rw [if_pos h]
  · intro h
    refine ⟨{m with M := storeProg m.M p}, ?_, ?_, ?_⟩
    · unfold loadProgram
      rw [if_neg (Nat.not_le.mpr h)]
    · intro a ha1 ha2
      have hc : (0 ≤ a ∧ a < (p.length : Int)) := ⟨ha1, ha2⟩
      show storeProg m.M p a = p.getD a.toNat 0
      simp [storeProg, hc]
    · intro a ha
      show storeProg m.M p a = m.M a
      simp [storeProg, ha]

/-- Witness for the amended C4 theorem: a 4096-word image is rejected and a
one-word image is loaded at address 0. -/
theorem load_capacity_check_witness :
    loadProgram zeroMachine (List.replicate 4096 (0 : Int)) = none ∧
    (∃ m2, loadProgram zeroMachine [(5 : Int)] = some m2 ∧
      (∀ a : Int, 0 ≤ a → a < (([(5 : Int)].length : Nat) : Int) →
        m2.M a = [(5 : Int)].getD a.toNat 0) ∧
      (∀ a : Int, ¬(0 ≤ a ∧ a < (([(5 : Int)].length : Nat) : Int)) →
        m2.M a = zeroMachine.M a)) :=
  ⟨(load_capacity_check zeroMachine (List.replicate 4096 0)).1
     (by rw [List.length_replicate]; exact Nat.le_refl 4096),
   (load_capacity_check zeroMachine [5]).2 (by decide)⟩

/-- Every succeeding pass-2 line encoding emits a word exactly when its token
list (after the label prefix has been dropped) is nonempty: only the empty
pattern produces `some none`, every other succeeding pattern produces
`some (some w)`. -/
theorem encodeLine_emits (st : Symtab) (toks : List Token) (r : Option Int)
    (h : encodeLine st toks = some r) : r.isSome ↔ toks ≠ [] := by
  cases toks with
  | nil =>
    simp only [encodeLine, Option.some.injEq] at h
    subst h
    simp
  | cons t0 ts =>
    cases ts with
    | nil =>
      simp only [encodeLine] at h
      all_goals try split at h
      all_goals try split at h
      all_goals first
        | (injection h with h2; subst h2; simp)
        | (exact absurd h (by simp))
    | cons t1 ts2 =>
      cases ts2 with
      | nil =>
        simp only [encodeLine] at h
        all_goals try split at h
        all_goals try split at h
        all_goals try split at h
        all_goals try split at h
        all_goals first
          | (injection h with h2; subst h2; simp)
          | (exact absurd h (by simp))
      | cons t2 ts3 =>
        simp only [encodeLine] at h
        exact absurd h (by simp)

/-- Claim C2, counterexample: in the program `Foo ,` / `Bar , Halt` both
labels are defined exactly once and the program assembles, but the bare-label
first line advances pass 1's address counter without producing a word, so
`Bar` is bound to address 1 while the count of code-producing lines preceding
its line is 0 (pass 2 emits nothing for the one-line prefix), and the whole
program assembles to the single word 28672 occupying address 0. -/
theorem bare_label_breaks_address_count :
    pass1 (splitOnNl ("Foo ,\nBar , Halt").data) [] 0 =
      some [("Bar".data, 1), ("Foo".data, 0)] ∧
    symLookup [("Bar".data, 1), ("Foo".data, 0)] ("Bar".data) = 1 ∧
    pass2 [("Bar".data, 1), ("Foo".data, 0)] [("Foo ,").data] = some [] ∧
    Assemble "Foo ,\nBar , Halt" = some [28672] :=
  ⟨rfl, rfl, rfl, rfl⟩

/-- Claim C2, amended: pass 1 advances its address counter exactly on the
lines that tokenize to at least one token, while pass 2 (when it succeeds)
emits a word exactly for the lines that still have at least one token after
the label prefix is dropped, and appends that word to the image.  The two
notions coincide except on bare-label lines (`Identifier Comma` and nothing
else), which advance the counter without emitting — so label addresses equal
the count of preceding token-producing lines, not of code-producing ones. -/
theorem pass1_advance_pass2_emit (l : List Char) (rest : List (List Char))
    (st st2 : Symtab) (a : Int) (toks : List Token) (h : tokenize l = some toks) :
    (toks = [] → pass1 (l :: rest) st a = pass1 rest st a) ∧
    (toks ≠ [] → ∃ st3, pass1 (l :: rest) st a = pass1 rest st3 (wrap64 (a + 1))) ∧
    (∀ r, encodeLine st2 (dropLabel toks) = some r →
      (r.isSome ↔ dropLabel toks ≠ [])) ∧
    (∀ w, encodeLine st2 (dropLabel toks) = some (some w) →
      pass2 st2 (l :: rest) = (pass2 st2 rest).map (w :: ·)) ∧
    (encodeLine st2 (dropLabel toks) = some none →
      pass2 st2 (l :: rest) = pass2 st2 rest) := by
  refine ⟨?_, ?_, fun r hr => encodeLine_emits st2 _ r hr, ?_, ?_⟩
  · intro h0
    subst h0
    simp [pass1, h]
  · intro h0
    match toks, h0 with
    | [t], _ =>
      exact ⟨st, by simp [pass1, h]⟩
    | t0 :: t1 :: ts, _ =>
      refine ⟨if t0.typ = TokenType.identifier ∧ t1.typ = TokenType.comma
              then (t0.str, a) :: st else st, ?_⟩
      simp [pass1, h]
  · intro w hw
    simp [pass2, h, hw]
  · intro hw
    simp [pass2, h, hw]

/-- Witness for the amended C2 theorem: a blank line (no advance, no
emission) and a `Halt` line (advance and emission of the word 28672),
each obtained by applying the theorem at the concrete line. -/
theorem pass1_advance_pass2_emit_witness :
    pass1 [([] : List Char)] [] 0 = pass1 [] [] 0 ∧
    (∃ st3, pass1 [("Halt".data)] [] 0 = pass1 [] st3 (wrap64 (0 + 1))) ∧
    ((some (28672 : Int)).isSome ↔
      dropLabel [⟨TokenType.instruction, "Halt".data⟩] ≠ []) ∧
    pass2 [] [("Halt".data)] = (pass2 [] []).map ((28672 : Int) :: ·) ∧
    pass2 [] [([] : List Char)] = pass2 [] [] :=
  ⟨(pass1_advance_pass2_emit [] [] [] [] 0 [] rfl).1 rfl,
   (pass1_advance_pass2_emit ("Halt".data) [] [] [] 0
      [⟨TokenType.instruction, "Halt".data⟩] rfl).2.1 (by decide),
   (pass1_advance_pass2_emit ("Halt".data) [] [] [] 0
      [⟨TokenType.instruction, "Halt".data⟩] rfl).2.2.1 (some 28672) rfl,
   (pass1_advance_pass2_emit ("Halt".data) [] [] [] 0
      [⟨TokenType.instruction, "Halt".data⟩] rfl).2.2.2.1 28672 rfl,
   (pass1_advance_pass2_emit [] [] [] [] 0 [] rfl).2.2.2.2 rfl⟩

end Mary
